import Mathlib

/-!
Navigation contract of the SumatraPDF `Controller`: a shallow embedding of
`src/Controller.h`.

* C++ `int` values are mathematical integers together with the range predicate
  `IsInt`; the two places where the source does arithmetic
  (`CurrentPageNo() + 1`, `CurrentPageNo() - 1`) go through `wrapInt`, the
  two's-complement wrap-around of a 32-bit `int`.
* The abstract class `Controller` becomes a record of its pure-virtual members
  over an arbitrary state type `σ`: the queries `PageCount`, `CurrentPageNo`
  and the state transformer `GoToPage`.  The non-pure virtual members
  (`ValidPageNo`, `GoToNextPage`, ...) are functions defined on that record,
  line by line from the header.
* `PageCount()` and `CurrentPageNo()` are observations of the state; they do
  not change it.
* A method that returns `bool` and may change the object returns `Bool × σ`.
* No overflow occurs while `1 <= CurrentPageNo() <= PageCount() <= INT_MAX`;
  outside that range `wrapInt` fixes the result that the C++ standard leaves
  open.
-/

namespace SumatraPDF

/-! ## Machine integers -/

/-- Smallest value of a 32-bit C++ `int`. -/
def INT_MIN : Int := -2147483648

/-- Largest value of a 32-bit C++ `int`. -/
def INT_MAX : Int := 2147483647

/-- The integer is representable as a 32-bit C++ `int`. -/
def IsInt (x : Int) : Prop := INT_MIN ≤ x ∧ x ≤ INT_MAX

instance (x : Int) : Decidable (IsInt x) := by
  unfold IsInt
  exact inferInstance

/-- Two's-complement wrap-around of an integer into the range of `int`. -/
def wrapInt (x : Int) : Int := (x + 2147483648) % 4294967296 - 2147483648

/-! ## The abstract class -/

/-- The pure-virtual members of `class Controller` that the common shortcuts
call (`Controller.h` lines 55, 59, 60), over a state type `σ` that stands for
the concrete object. -/
structure Controller (σ : Type) where
  /-- Member `virtual int PageCount() const = 0`. -/
  PageCount : σ → Int
  /-- Member `virtual int CurrentPageNo() = 0`. -/
  CurrentPageNo : σ → Int
  /-- Member `virtual void GoToPage(int pageNo, bool addNavPoint) = 0`. -/
  GoToPage : σ → Int → Bool → σ

namespace Controller

variable {σ : Type}

/-- Method `ValidPageNo` (lines 90-92):
`return 1 <= pageNo && pageNo <= PageCount();`. -/
def ValidPageNo (c : Controller σ) (s : σ) (pageNo : Int) : Bool :=
  decide (1 ≤ pageNo) && decide (pageNo ≤ c.PageCount s)

/-- Method `GoToNextPage` (lines 93-98). -/
def GoToNextPage (c : Controller σ) (s : σ) : Bool × σ :=
  if c.CurrentPageNo s = c.PageCount s then
    (false, s)
  else
    (true, c.GoToPage s (wrapInt (c.CurrentPageNo s + 1)) false)

/-- Method `GoToPrevPage` (lines 99-104); the argument `toBottom` is not used
by the body. -/
def GoToPrevPage (c : Controller σ) (s : σ) (_toBottom : Bool) : Bool × σ :=
  if c.CurrentPageNo s = 1 then
    (false, s)
  else
    (true, c.GoToPage s (wrapInt (c.CurrentPageNo s - 1)) false)

/-- Method `GoToFirstPage` (lines 105-110). -/
def GoToFirstPage (c : Controller σ) (s : σ) : Bool × σ :=
  if c.CurrentPageNo s = 1 then
    (false, s)
  else
    (true, c.GoToPage s 1 true)

/-- Method `GoToLastPage` (lines 111-116). -/
def GoToLastPage (c : Controller σ) (s : σ) : Bool × σ :=
  if c.CurrentPageNo s = c.PageCount s then
    (false, s)
  else
    (true, c.GoToPage s (c.PageCount s) true)

/-- The same controller with every `GoToPage` call recorded: the state is
paired with the list of `(pageNo, addNavPoint)` arguments received so far,
oldest first.  Running a shortcut on `c.logged` from `(s, [])` yields the calls
that the shortcut issues. -/
def logged (c : Controller σ) : Controller (σ × List (Int × Bool)) where
  PageCount := fun s => c.PageCount s.1
  CurrentPageNo := fun s => c.CurrentPageNo s.1
  GoToPage := fun s pageNo addNavPoint =>
    (c.GoToPage s.1 pageNo addNavPoint, s.2 ++ [(pageNo, addNavPoint)])

/-- State after `k` consecutive calls of `GoToNextPage`. -/
def afterNextPages (c : Controller σ) (s : σ) : Nat → σ
  | 0 => s
  | k + 1 => (c.GoToNextPage (afterNextPages c s k)).2

/-- Return value of call number `k + 1` in a run of consecutive
`GoToNextPage` calls. -/
def nextPageResult (c : Controller σ) (s : σ) (k : Nat) : Bool :=
  (c.GoToNextPage (afterNextPages c s k)).1

end Controller

/-- Modelled from the spec: the contract of the pure-virtual `GoToPage`, whose
implementations are not in `Controller.h`.  "`GoToPage(pageNo, addNavPoint)`
fails silently (no-op) if `pageNo` is out of `[1, PageCount()]`", otherwise the
current page becomes `pageNo`; the page count is a property of the document
and is not changed by navigation. -/
structure GoToPageContract {σ : Type} (c : Controller σ) : Prop where
  pageCount_fixed : ∀ s pageNo addNavPoint,
    c.PageCount (c.GoToPage s pageNo addNavPoint) = c.PageCount s
  moves : ∀ s pageNo addNavPoint, 1 ≤ pageNo → pageNo ≤ c.PageCount s →
    c.CurrentPageNo (c.GoToPage s pageNo addNavPoint) = pageNo
  silent_noop : ∀ s pageNo addNavPoint, ¬ (1 ≤ pageNo ∧ pageNo ≤ c.PageCount s) →
    c.GoToPage s pageNo addNavPoint = s

/-- Modelled from the spec: the navigation history is an external collaborator
observed through `navHistory`.  "When `addNavPoint` is true the prior position
is pushed onto a navigation history before moving"; a call with
`addNavPoint = false` leaves the history as it was. -/
structure NavPointContract {σ : Type} (c : Controller σ) (navHistory : σ → List Int) :
    Prop where
  kept : ∀ s pageNo, navHistory (c.GoToPage s pageNo false) = navHistory s
  pushed : ∀ s pageNo, 1 ≤ pageNo → pageNo ≤ c.PageCount s →
    navHistory (c.GoToPage s pageNo true) = c.CurrentPageNo s :: navHistory s

/-- The page-range invariant `1 <= CurrentPageNo() <= PageCount()`. -/
def PageInRange {σ : Type} (c : Controller σ) (s : σ) : Prop :=
  1 ≤ c.CurrentPageNo s ∧ c.CurrentPageNo s ≤ c.PageCount s

instance {σ : Type} (c : Controller σ) (s : σ) : Decidable (PageInRange c s) := by
  unfold PageInRange
  exact inferInstance

/-! ## A concrete document -/

/-- A loaded document as the shortcuts see it: its page count, the current
page and the navigation history (most recent entry first). -/
structure DocState where
  pageCount : Int
  currentPageNo : Int
  navHistory : List Int
  deriving DecidableEq, Repr

/-- Modelled from the spec: a `GoToPage` that follows its contract on
`DocState`: out of `[1, PageCount()]` it does nothing; otherwise it pushes the
prior page onto the history when `addNavPoint` is set and moves. -/
def docGoToPage (s : DocState) (pageNo : Int) (addNavPoint : Bool) : DocState :=
  if 1 ≤ pageNo ∧ pageNo ≤ s.pageCount then
    { pageCount := s.pageCount
      currentPageNo := pageNo
      navHistory := if addNavPoint then s.currentPageNo :: s.navHistory else s.navHistory }
  else
    s

/-- The controller of a `DocState`. -/
def docController : Controller DocState where
  PageCount := DocState.pageCount
  CurrentPageNo := DocState.currentPageNo
  GoToPage := docGoToPage

/-! ## Page labels (lines 85-87) -/

/-- A `WCHAR` string: the list of its UTF-16 code units, without the
terminating zero. -/
abbrev WString := List Nat

/-- Code unit of the decimal digit `d` (`48` is the digit zero). -/
def digitChar (d : Nat) : Nat := 48 + d

/-- Modelled from the spec: the digits that `%d` prints for a non-negative
number, most significant first; `fuel` bounds the number of digits and
`n < fuel` is always enough. -/
def formatDigits : Nat → Nat → WString
  | 0, _ => []
  | fuel + 1, n =>
    if n < 10 then [digitChar n]
    else formatDigits fuel (n / 10) ++ [digitChar (n % 10)]

/-- Modelled from the spec: `str::Format(L"%d", n)` of `StrUtil`, which is not
part of `Controller.h`: the decimal text of `n`, with a leading minus sign
(code unit `45`) for a negative number. -/
def strFormatD (n : Int) : WString :=
  if n < 0 then 45 :: formatDigits (n.natAbs + 1) n.natAbs
  else formatDigits (n.natAbs + 1) n.natAbs

/-- White space as the C runtime skips it: space, tab, line feed, vertical tab,
form feed, carriage return. -/
def isWSpace (c : Nat) : Bool := c == 32 || (decide (9 ≤ c) && decide (c ≤ 13))

/-- Decimal digit code units. -/
def isWDigit (c : Nat) : Bool := decide (48 ≤ c) && decide (c ≤ 57)

/-- Drop leading white space. -/
def skipSpaces : WString → WString
  | [] => []
  | c :: cs => if isWSpace c then skipSpaces cs else c :: cs

/-- Value of the longest run of leading digits, continuing from `acc`. -/
def wtoiDigits (acc : Nat) : WString → Nat
  | [] => acc
  | c :: cs => if isWDigit c then wtoiDigits (acc * 10 + (c - 48)) cs else acc

/-- Result of an out-of-range conversion: the C runtime returns `INT_MAX` or
`INT_MIN`. -/
def saturateInt (x : Int) : Int :=
  if x < INT_MIN then INT_MIN else if INT_MAX < x then INT_MAX else x

/-- Modelled from the spec: the C runtime function `_wtoi`, which is not part
of the repository: skip white space, read an optional sign (`45` minus, `43`
plus), then the longest run of decimal digits; no digits give `0`. -/
def _wtoi (label : WString) : Int :=
  match skipSpaces label with
  | [] => 0
  | c :: cs =>
    if c = 45 then saturateInt (-(wtoiDigits 0 cs : Int))
    else if c = 43 then saturateInt (wtoiDigits 0 cs : Int)
    else saturateInt (wtoiDigits 0 (c :: cs) : Int)

/-- Method `HasPageLabels` (line 85): `return false;`. -/
def Controller.HasPageLabels : Bool := false

/-- Method `GetPageLabel` (line 86): `return str::Format(L"%d", pageNo);`. -/
def Controller.GetPageLabel (pageNo : Int) : WString := strFormatD pageNo

/-- Method `GetPageByLabel` (line 87): `return _wtoi(label);`. -/
def Controller.GetPageByLabel (label : WString) : Int := _wtoi label

/-- The decimal text of a natural number, written from the words of the
specification with the library's positional digits: `"0"` for zero, otherwise
the base-10 digits, most significant first, none of them a leading zero. -/
def decimalText (n : Nat) : WString :=
  if n = 0 then [digitChar 0] else ((Nat.digits 10 n).reverse).map digitChar

/-! ## Capability queries (lines 118-121) -/

/-- The three variants of `Controller` declared in the header (lines 127, 147,
158). -/
inductive Variant where
  | FixedPageUIController
  | ChmUIController
  | EbookUIController
  deriving DecidableEq, Repr

/-- Method `Controller::AsFixed` (line 119): the base class returns `NULL`. -/
def Controller.AsFixed {α : Type} (_this : α) : Option α := none

/-- Method `Controller::AsChm` (line 120): the base class returns `NULL`. -/
def Controller.AsChm {α : Type} (_this : α) : Option α := none

/-- Method `Controller::AsEbook` (line 121): the base class returns `NULL`. -/
def Controller.AsEbook {α : Type} (_this : α) : Option α := none

/-- Modelled from the spec: the override of `AsFixed` in the concrete classes,
which are not in `Controller.h`: "exactly one concrete variant overrides its own
to return `this`"; the other variants inherit the base method. -/
def Variant.AsFixed {α : Type} (v : Variant) (this : α) : Option α :=
  match v with
  | .FixedPageUIController => some this
  | .ChmUIController => Controller.AsFixed this
  | .EbookUIController => Controller.AsFixed this

/-- Modelled from the spec: the override of `AsChm` in the concrete classes,
which are not in `Controller.h`; only the CHM variant returns `this`. -/
def Variant.AsChm {α : Type} (v : Variant) (this : α) : Option α :=
  match v with
  | .FixedPageUIController => Controller.AsChm this
  | .ChmUIController => some this
  | .EbookUIController => Controller.AsChm this

/-- Modelled from the spec: the override of `AsEbook` in the concrete classes,
which are not in `Controller.h`; only the ebook variant returns `this`. -/
def Variant.AsEbook {α : Type} (v : Variant) (this : α) : Option α :=
  match v with
  | .FixedPageUIController => Controller.AsEbook this
  | .ChmUIController => Controller.AsEbook this
  | .EbookUIController => some this

/-! ## Construction (line 49) -/

/-- A pointer to a `ControllerCallback`: its address, `0` for `NULL`. -/
abbrev CallbackPtr := Nat

/-- The null pointer. -/
def NULL : CallbackPtr := 0

/-- The program was stopped by a failed `CrashIf`. -/
inductive Fatal where
  | crash
  deriving DecidableEq, Repr

/-- Modelled from the spec: the macro `CrashIf`, defined outside
`Controller.h`: a condition that holds is a "fatal, not recoverable"
programming error; otherwise execution continues. -/
def CrashIf (cond : Bool) : Except Fatal Unit :=
  if cond then Except.error Fatal.crash else Except.ok ()

/-- The data member of `class Controller` (line 46). -/
structure ControllerFields where
  cb : CallbackPtr
  deriving DecidableEq, Repr

/-- Constructor `Controller(ControllerCallback *cb) : cb(cb) { CrashIf(!cb); }`
(line 49): the member is initialised from the argument, then the body runs. -/
def Controller.ctor (cb : CallbackPtr) : Except Fatal ControllerFields :=
  let this : ControllerFields := { cb := cb }
  match CrashIf (cb == NULL) with
  | Except.error e => Except.error e
  | Except.ok () => Except.ok this

/-! ## Theorems -/

theorem docController_contract : GoToPageContract docController := by
  refine ⟨?_, ?_, ?_⟩
  · intro s pageNo addNavPoint
    simp only [docController, docGoToPage]
    split <;> rfl
  · intro s pageNo addNavPoint h1 h2
    simp only [docController] at h2 ⊢
    simp [docGoToPage, h1, h2]
  · intro s pageNo addNavPoint h
    simp only [docController] at h ⊢
    simp only [docGoToPage, if_neg h]

theorem docController_navPoints : NavPointContract docController DocState.navHistory := by
  refine ⟨?_, ?_⟩
  · intro s pageNo
    simp only [docController, docGoToPage]
    split <;> simp
  · intro s pageNo h1 h2
    simp only [docController] at h2 ⊢
    simp [docGoToPage, h1, h2]

/-- C1: with a contract-following `GoToPage` and `1 <= p <= n`, `GoToNextPage`
at the last page returns false and leaves the object as it was; at an earlier
page it returns true and the current page afterwards is `p + 1`. -/
theorem GoToNextPage_spec {σ : Type} (c : Controller σ) (hc : GoToPageContract c) (s : σ)
    (hn : IsInt (c.PageCount s)) (hp : PageInRange c s) :
    (c.CurrentPageNo s = c.PageCount s →
      c.GoToNextPage s = (false, s) ∧
      c.CurrentPageNo (c.GoToNextPage s).2 = c.PageCount s) ∧
    (c.CurrentPageNo s < c.PageCount s →
      (c.GoToNextPage s).1 = true ∧
      c.CurrentPageNo (c.GoToNextPage s).2 = c.CurrentPageNo s + 1) := by
  obtain ⟨h1, h2⟩ := hp
  have hw : wrapInt (c.CurrentPageNo s + 1) = c.CurrentPageNo s + 1 ∨
      c.CurrentPageNo s = c.PageCount s := by
    simp only [IsInt, INT_MIN, INT_MAX] at hn
    simp only [wrapInt]
    omega
  constructor
  · intro h
    simp [Controller.GoToNextPage, h]
  · intro h
    have hne : c.CurrentPageNo s ≠ c.PageCount s := by omega
    have hw2 : wrapInt (c.CurrentPageNo s + 1) = c.CurrentPageNo s + 1 := by
      rcases hw with hw | hw
      · exact hw
      · exact absurd hw hne
    simp only [Controller.GoToNextPage, if_neg hne, hw2, true_and]
    exact hc.moves s _ false (by omega) (by omega)

theorem GoToNextPage_spec_witness :
    GoToPageContract docController ∧
    IsInt (docController.PageCount ⟨10, 5, []⟩) ∧
    PageInRange docController ⟨10, 5, []⟩ ∧
    (docController.GoToNextPage ⟨10, 5, []⟩).1 = true ∧
    docController.CurrentPageNo (docController.GoToNextPage ⟨10, 5, []⟩).2 = 6 :=
  ⟨docController_contract, by decide, by decide,
    ((GoToNextPage_spec docController docController_contract ⟨10, 5, []⟩
      (by decide) (by decide)).2 (by decide))⟩

/-! ### Shared facts about the shortcuts -/

theorem wrapInt_succ_page {σ : Type} (c : Controller σ) (s : σ)
    (hn : IsInt (c.PageCount s)) (h1 : 1 ≤ c.CurrentPageNo s)
    (h : c.CurrentPageNo s < c.PageCount s) :
    wrapInt (c.CurrentPageNo s + 1) = c.CurrentPageNo s + 1 := by
  simp only [IsInt, INT_MIN, INT_MAX] at hn
  simp only [wrapInt]
  omega

theorem wrapInt_pred_page {σ : Type} (c : Controller σ) (s : σ)
    (hn : IsInt (c.PageCount s)) (hp : PageInRange c s) :
    wrapInt (c.CurrentPageNo s - 1) = c.CurrentPageNo s - 1 := by
  simp only [IsInt, INT_MIN, INT_MAX] at hn
  simp only [PageInRange] at hp
  simp only [wrapInt]
  omega

theorem GoToNextPage_of_lt {σ : Type} (c : Controller σ) (s : σ)
    (hn : IsInt (c.PageCount s)) (h1 : 1 ≤ c.CurrentPageNo s)
    (h : c.CurrentPageNo s < c.PageCount s) :
    c.GoToNextPage s = (true, c.GoToPage s (c.CurrentPageNo s + 1) false) := by
  have hne : c.CurrentPageNo s ≠ c.PageCount s := by omega
  simp only [Controller.GoToNextPage, if_neg hne, wrapInt_succ_page c s hn h1 h]

theorem GoToNextPage_of_eq {σ : Type} (c : Controller σ) (s : σ)
    (h : c.CurrentPageNo s = c.PageCount s) : c.GoToNextPage s = (false, s) := by
  simp only [Controller.GoToNextPage, if_pos h]

theorem GoToPrevPage_of_gt {σ : Type} (c : Controller σ) (s : σ) (toBottom : Bool)
    (hn : IsInt (c.PageCount s)) (hp : PageInRange c s) (h : 1 < c.CurrentPageNo s) :
    c.GoToPrevPage s toBottom = (true, c.GoToPage s (c.CurrentPageNo s - 1) false) := by
  have hne : c.CurrentPageNo s ≠ 1 := by omega
  simp only [Controller.GoToPrevPage, if_neg hne, wrapInt_pred_page c s hn hp]

theorem GoToPrevPage_of_eq {σ : Type} (c : Controller σ) (s : σ) (toBottom : Bool)
    (h : c.CurrentPageNo s = 1) : c.GoToPrevPage s toBottom = (false, s) := by
  simp only [Controller.GoToPrevPage, if_pos h]

/-- The pages reached by a run of `GoToNextPage` calls: the page count never
changes and the current page after `k` calls is `min (p + k) n`. -/
theorem afterNextPages_page {σ : Type} (c : Controller σ) (hc : GoToPageContract c) (s : σ)
    (hn : IsInt (c.PageCount s)) (hp : PageInRange c s) (k : Nat) :
    c.PageCount (c.afterNextPages s k) = c.PageCount s ∧
    c.CurrentPageNo (c.afterNextPages s k) = min (c.CurrentPageNo s + k) (c.PageCount s) := by
  obtain ⟨h1, h2⟩ := hp
  induction k with
  | zero =>
    refine ⟨rfl, ?_⟩
    simp only [Controller.afterNextPages, Nat.cast_zero, add_zero]
    omega
  | succ k ih =>
    obtain ⟨ihn, ihp⟩ := ih
    simp only [Controller.afterNextPages]
    have hn2 : IsInt (c.PageCount (c.afterNextPages s k)) := by rw [ihn]; exact hn
    rcases lt_or_ge (c.CurrentPageNo (c.afterNextPages s k)) (c.PageCount s) with hlt | hge
    · have hlt2 : c.CurrentPageNo (c.afterNextPages s k) <
          c.PageCount (c.afterNextPages s k) := by rw [ihn]; exact hlt
      have hone : 1 ≤ c.CurrentPageNo (c.afterNextPages s k) := by omega
      rw [GoToNextPage_of_lt c _ hn2 hone hlt2]
      refine ⟨?_, ?_⟩
      · rw [hc.pageCount_fixed, ihn]
      · rw [hc.moves _ _ false (by omega) (by omega)]
        push_cast
        omega
    · have heq : c.CurrentPageNo (c.afterNextPages s k) =
          c.PageCount (c.afterNextPages s k) := by rw [ihn]; omega
      rw [GoToNextPage_of_eq c _ heq]
      refine ⟨ihn, ?_⟩
      push_cast
      omega

/-! ### The claims -/

/-- C2: with a contract-following `GoToPage` and `1 <= p <= n`, `GoToFirstPage`
at page 1 (`GoToLastPage` at page `n`) returns false, issues no `GoToPage` call
and leaves the object as it was; elsewhere it returns true, issues exactly the
one call `GoToPage(1, true)` (`GoToPage(n, true)`) and the current page becomes
1 (`n`).  A second call in a row returns false and changes nothing. -/
theorem GoToFirstPage_GoToLastPage_spec {σ : Type} (c : Controller σ)
    (hc : GoToPageContract c) (s : σ) (hp : PageInRange c s) :
    (c.CurrentPageNo s = 1 →
      c.GoToFirstPage s = (false, s) ∧
      (c.logged.GoToFirstPage (s, [])).2.2 = []) ∧
    (c.CurrentPageNo s ≠ 1 →
      c.GoToFirstPage s = (true, c.GoToPage s 1 true) ∧
      (c.logged.GoToFirstPage (s, [])).2.2 = [(1, true)] ∧
      c.CurrentPageNo (c.GoToFirstPage s).2 = 1) ∧
    (c.CurrentPageNo s = c.PageCount s →
      c.GoToLastPage s = (false, s) ∧
      (c.logged.GoToLastPage (s, [])).2.2 = []) ∧
    (c.CurrentPageNo s ≠ c.PageCount s →
      c.GoToLastPage s = (true, c.GoToPage s (c.PageCount s) true) ∧
      (c.logged.GoToLastPage (s, [])).2.2 = [(c.PageCount s, true)] ∧
      c.CurrentPageNo (c.GoToLastPage s).2 = c.PageCount s) ∧
    c.GoToFirstPage (c.GoToFirstPage s).2 = (false, (c.GoToFirstPage s).2) ∧
    c.GoToLastPage (c.GoToLastPage s).2 = (false, (c.GoToLastPage s).2) := by
  obtain ⟨h1, h2⟩ := hp
  have hfirst : c.CurrentPageNo (c.GoToPage s 1 true) = 1 :=
    hc.moves s 1 true (le_refl 1) (by omega)
  have hlast : c.CurrentPageNo (c.GoToPage s (c.PageCount s) true) = c.PageCount s :=
    hc.moves s _ true (by omega) (le_refl _)
  refine ⟨?_, ?_, ?_, ?_, ?_, ?_⟩
  · intro h
    simp [Controller.GoToFirstPage, Controller.logged, h]
  · intro h
    simp [Controller.GoToFirstPage, Controller.logged, h, hfirst]
  · intro h
    simp [Controller.GoToLastPage, Controller.logged, h]
  · intro h
    simp [Controller.GoToLastPage, Controller.logged, h, hlast]
  · by_cases h : c.CurrentPageNo s = 1
    · simp [Controller.GoToFirstPage, h]
    · simp [Controller.GoToFirstPage, h, hfirst]
  · by_cases h : c.CurrentPageNo s = c.PageCount s
    · simp [Controller.GoToLastPage, h]
    · simp [Controller.GoToLastPage, h, hlast, hc.pageCount_fixed]

theorem GoToFirstPage_GoToLastPage_spec_witness :
    GoToPageContract docController ∧
    PageInRange docController ⟨10, 5, [2]⟩ ∧
    docController.GoToFirstPage ⟨10, 5, [2]⟩ = (true, ⟨10, 1, [5, 2]⟩) ∧
    docController.GoToLastPage ⟨10, 5, [2]⟩ = (true, ⟨10, 10, [5, 2]⟩) ∧
    docController.GoToFirstPage (docController.GoToFirstPage ⟨10, 5, [2]⟩).2 =
      (false, (docController.GoToFirstPage ⟨10, 5, [2]⟩).2) ∧
    docController.GoToLastPage (docController.GoToLastPage ⟨10, 5, [2]⟩).2 =
      (false, (docController.GoToLastPage ⟨10, 5, [2]⟩).2) :=
  have h := GoToFirstPage_GoToLastPage_spec docController docController_contract
    ⟨10, 5, [2]⟩ (by decide)
  ⟨docController_contract, by decide, by decide, by decide, h.2.2.2.2.1, h.2.2.2.2.2⟩

/-- C5, as stated, fails: on an empty document (`PageCount() = 0`) with a
contract-following `GoToPage`, `GoToPrevPage` and `GoToFirstPage` at page 0,
and `GoToNextPage` and `GoToLastPage` at page 1, all return true although the
current page did not change.  The same happens on a 3-page document when the
current page is outside `[1, 3]`: `GoToNextPage` at page 5 and `GoToPrevPage`
at page 0. -/
theorem shortcuts_report_move_without_moving :
    GoToPageContract docController ∧
    ((docController.GoToPrevPage ⟨0, 0, []⟩ false).1 = true ∧
      docController.CurrentPageNo (docController.GoToPrevPage ⟨0, 0, []⟩ false).2 =
        docController.CurrentPageNo ⟨0, 0, []⟩) ∧
    ((docController.GoToFirstPage ⟨0, 0, []⟩).1 = true ∧
      docController.CurrentPageNo (docController.GoToFirstPage ⟨0, 0, []⟩).2 =
        docController.CurrentPageNo ⟨0, 0, []⟩) ∧
    ((docController.GoToNextPage ⟨0, 1, []⟩).1 = true ∧
      docController.CurrentPageNo (docController.GoToNextPage ⟨0, 1, []⟩).2 =
        docController.CurrentPageNo ⟨0, 1, []⟩) ∧
    ((docController.GoToLastPage ⟨0, 1, []⟩).1 = true ∧
      docController.CurrentPageNo (docController.GoToLastPage ⟨0, 1, []⟩).2 =
        docController.CurrentPageNo ⟨0, 1, []⟩) ∧
    ((docController.GoToNextPage ⟨3, 5, []⟩).1 = true ∧
      docController.CurrentPageNo (docController.GoToNextPage ⟨3, 5, []⟩).2 =
        docController.CurrentPageNo ⟨3, 5, []⟩) ∧
    ((docController.GoToPrevPage ⟨3, 0, []⟩ false).1 = true ∧
      docController.CurrentPageNo (docController.GoToPrevPage ⟨3, 0, []⟩ false).2 =
        docController.CurrentPageNo ⟨3, 0, []⟩) :=
  ⟨docController_contract, by decide, by decide, by decide, by decide, by decide,
    by decide⟩

/-- C5, amended: with a contract-following `GoToPage` and a current page in
`[1, PageCount()]`, each of `GoToNextPage`, `GoToPrevPage`, `GoToFirstPage` and
`GoToLastPage` returns true if and only if the current page after the call
differs from the current page before it. -/
theorem shortcuts_return_whether_moved {σ : Type} (c : Controller σ)
    (hc : GoToPageContract c) (s : σ) (hn : IsInt (c.PageCount s))
    (hp : PageInRange c s) (toBottom : Bool) :
    ((c.GoToNextPage s).1 = true ↔
      c.CurrentPageNo (c.GoToNextPage s).2 ≠ c.CurrentPageNo s) ∧
    ((c.GoToPrevPage s toBottom).1 = true ↔
      c.CurrentPageNo (c.GoToPrevPage s toBottom).2 ≠ c.CurrentPageNo s) ∧
    ((c.GoToFirstPage s).1 = true ↔
      c.CurrentPageNo (c.GoToFirstPage s).2 ≠ c.CurrentPageNo s) ∧
    ((c.GoToLastPage s).1 = true ↔
      c.CurrentPageNo (c.GoToLastPage s).2 ≠ c.CurrentPageNo s) := by
  have hp0 := hp
  obtain ⟨h1, h2⟩ := hp
  refine ⟨?_, ?_, ?_, ?_⟩
  · rcases eq_or_lt_of_le h2 with h | h
    · simp [GoToNextPage_of_eq c s h]
    · rw [GoToNextPage_of_lt c s hn h1 h]
      have hm := hc.moves s (c.CurrentPageNo s + 1) false (by omega) (by omega)
      simp only [true_iff, hm]
      omega
  · rcases eq_or_lt_of_le h1 with h | h
    · simp [GoToPrevPage_of_eq c s toBottom h.symm]
    · rw [GoToPrevPage_of_gt c s toBottom hn hp0 h]
      have hm := hc.moves s (c.CurrentPageNo s - 1) false (by omega) (by omega)
      simp only [true_iff, hm]
      omega
  · by_cases h : c.CurrentPageNo s = 1
    · simp [Controller.GoToFirstPage, h]
    · have hm := hc.moves s 1 true (le_refl 1) (by omega)
      simp only [Controller.GoToFirstPage, if_neg h, true_iff, hm]
      omega
  · by_cases h : c.CurrentPageNo s = c.PageCount s
    · simp [Controller.GoToLastPage, h]
    · have hm := hc.moves s (c.PageCount s) true (by omega) (le_refl _)
      simp only [Controller.GoToLastPage, if_neg h, true_iff, hm]
      omega

theorem shortcuts_return_whether_moved_witness :
    GoToPageContract docController ∧
    IsInt (docController.PageCount ⟨3, 3, []⟩) ∧
    PageInRange docController ⟨3, 3, []⟩ ∧
    (docController.GoToNextPage ⟨3, 3, []⟩).1 = false ∧
    ((docController.GoToPrevPage ⟨3, 3, []⟩ true).1 = true ↔
      docController.CurrentPageNo (docController.GoToPrevPage ⟨3, 3, []⟩ true).2 ≠
        docController.CurrentPageNo ⟨3, 3, []⟩) :=
  ⟨docController_contract, by decide, by decide, by decide,
    (shortcuts_return_whether_moved docController docController_contract ⟨3, 3, []⟩
      (by decide) (by decide) true).2.1⟩

/-- C7: `1 <= CurrentPageNo() <= PageCount()` is preserved, and `PageCount()`
left unchanged, by a contract-following `GoToPage` with any arguments and by
each of `GoToNextPage`, `GoToPrevPage`, `GoToFirstPage`, `GoToLastPage`. -/
theorem pageInRange_invariant {σ : Type} (c : Controller σ) (hc : GoToPageContract c)
    (s : σ) (hp : PageInRange c s) :
    (∀ (pageNo : Int) (addNavPoint : Bool),
      PageInRange c (c.GoToPage s pageNo addNavPoint) ∧
      c.PageCount (c.GoToPage s pageNo addNavPoint) = c.PageCount s) ∧
    (PageInRange c (c.GoToNextPage s).2 ∧
      c.PageCount (c.GoToNextPage s).2 = c.PageCount s) ∧
    (∀ toBottom : Bool, PageInRange c (c.GoToPrevPage s toBottom).2 ∧
      c.PageCount (c.GoToPrevPage s toBottom).2 = c.PageCount s) ∧
    (PageInRange c (c.GoToFirstPage s).2 ∧
      c.PageCount (c.GoToFirstPage s).2 = c.PageCount s) ∧
    (PageInRange c (c.GoToLastPage s).2 ∧
      c.PageCount (c.GoToLastPage s).2 = c.PageCount s) := by
  have hgo : ∀ (pageNo : Int) (addNavPoint : Bool),
      PageInRange c (c.GoToPage s pageNo addNavPoint) ∧
      c.PageCount (c.GoToPage s pageNo addNavPoint) = c.PageCount s := by
    intro pageNo addNavPoint
    refine ⟨?_, hc.pageCount_fixed s pageNo addNavPoint⟩
    by_cases hv : 1 ≤ pageNo ∧ pageNo ≤ c.PageCount s
    · simp only [PageInRange, hc.pageCount_fixed, hc.moves s pageNo addNavPoint hv.1 hv.2]
      exact hv
    · rw [hc.silent_noop s pageNo addNavPoint hv]
      exact hp
  refine ⟨hgo, ?_, ?_, ?_, ?_⟩
  · simp only [Controller.GoToNextPage]
    split
    · exact ⟨hp, rfl⟩
    · exact hgo _ _
  · intro toBottom
    simp only [Controller.GoToPrevPage]
    split
    · exact ⟨hp, rfl⟩
    · exact hgo _ _
  · simp only [Controller.GoToFirstPage]
    split
    · exact ⟨hp, rfl⟩
    · exact hgo _ _
  · simp only [Controller.GoToLastPage]
    split
    · exact ⟨hp, rfl⟩
    · exact hgo _ _

theorem pageInRange_invariant_witness :
    GoToPageContract docController ∧
    PageInRange docController ⟨10, 10, [4]⟩ ∧
    PageInRange docController (docController.GoToPage ⟨10, 10, [4]⟩ 11 true) ∧
    PageInRange docController (docController.GoToPrevPage ⟨10, 10, [4]⟩ false).2 :=
  have h := pageInRange_invariant docController docController_contract ⟨10, 10, [4]⟩
    (by decide)
  ⟨docController_contract, by decide, (h.1 11 true).1, (h.2.2.1 false).1⟩

/-- C8: from page `p` of `n` (`1 <= p <= n`, contract-following `GoToPage`),
a run of `GoToNextPage` calls returns true on each of the first `n - p` calls,
the current page after `k <= n - p` calls is `p + k`, and from then on every
call returns false with the current page staying at `n`. -/
theorem GoToNextPage_repeated {σ : Type} (c : Controller σ) (hc : GoToPageContract c)
    (s : σ) (hn : IsInt (c.PageCount s)) (hp : PageInRange c s) (k : Nat) :
    ((k : Int) ≤ c.PageCount s - c.CurrentPageNo s →
      c.CurrentPageNo (c.afterNextPages s k) = c.CurrentPageNo s + k) ∧
    ((k : Int) < c.PageCount s - c.CurrentPageNo s →
      c.nextPageResult s k = true) ∧
    (c.PageCount s - c.CurrentPageNo s ≤ (k : Int) →
      c.nextPageResult s k = false ∧
      c.CurrentPageNo (c.afterNextPages s k) = c.PageCount s ∧
      c.CurrentPageNo (c.afterNextPages s (k + 1)) = c.PageCount s) := by
  obtain ⟨hcnt, hpage⟩ := afterNextPages_page c hc s hn hp k
  obtain ⟨_, hpage1⟩ := afterNextPages_page c hc s hn hp (k + 1)
  obtain ⟨h1, h2⟩ := hp
  refine ⟨?_, ?_, ?_⟩
  · intro hk
    rw [hpage]
    omega
  · intro hk
    have hlt : c.CurrentPageNo (c.afterNextPages s k) <
        c.PageCount (c.afterNextPages s k) := by rw [hcnt, hpage]; omega
    have hone : 1 ≤ c.CurrentPageNo (c.afterNextPages s k) := by rw [hpage]; omega
    have hn2 : IsInt (c.PageCount (c.afterNextPages s k)) := by rw [hcnt]; exact hn
    simp only [Controller.nextPageResult, GoToNextPage_of_lt c _ hn2 hone hlt]
  · intro hk
    have heq : c.CurrentPageNo (c.afterNextPages s k) =
        c.PageCount (c.afterNextPages s k) := by rw [hcnt, hpage]; omega
    refine ⟨?_, ?_, ?_⟩
    · simp only [Controller.nextPageResult, GoToNextPage_of_eq c _ heq]
    · rw [hpage]
      omega
    · rw [hpage1]
      push_cast
      omega

theorem GoToNextPage_repeated_witness :
    GoToPageContract docController ∧
    IsInt (docController.PageCount ⟨10, 5, []⟩) ∧
    PageInRange docController ⟨10, 5, []⟩ ∧
    docController.nextPageResult ⟨10, 5, []⟩ 0 = true ∧
    docController.CurrentPageNo (docController.afterNextPages ⟨10, 5, []⟩ 1) = 6 ∧
    docController.CurrentPageNo (docController.afterNextPages ⟨10, 5, []⟩ 5) = 10 ∧
    docController.nextPageResult ⟨10, 5, []⟩ 5 = false ∧
    docController.CurrentPageNo (docController.afterNextPages ⟨10, 5, []⟩ 6) = 10 :=
  ⟨docController_contract, by decide, by decide,
    (GoToNextPage_repeated docController docController_contract ⟨10, 5, []⟩
      (by decide) (by decide) 0).2.1 (by decide),
    (GoToNextPage_repeated docController docController_contract ⟨10, 5, []⟩
      (by decide) (by decide) 1).1 (by decide),
    (GoToNextPage_repeated docController docController_contract ⟨10, 5, []⟩
      (by decide) (by decide) 5).1 (by decide),
    ((GoToNextPage_repeated docController docController_contract ⟨10, 5, []⟩
      (by decide) (by decide) 5).2.2 (by decide)).1,
    ((GoToNextPage_repeated docController docController_contract ⟨10, 5, []⟩
      (by decide) (by decide) 5).2.2 (by decide)).2.2⟩

/-- C9: `ValidPageNo(q)` holds exactly when `1 <= q <= PageCount()`, and for a
current page in `[1, PageCount()]` the boundary tests of the shortcuts agree
with it: `GoToNextPage` returns `ValidPageNo(CurrentPageNo() + 1)`,
`GoToPrevPage` returns `ValidPageNo(CurrentPageNo() - 1)`, and every page
number that one of the four shortcuts passes to `GoToPage` is valid. -/
theorem shortcuts_agree_with_ValidPageNo {σ : Type} (c : Controller σ) (s : σ)
    (hn : IsInt (c.PageCount s)) (hp : PageInRange c s) (toBottom : Bool) :
    (∀ q : Int, c.ValidPageNo s q = true ↔ (1 ≤ q ∧ q ≤ c.PageCount s)) ∧
    (c.GoToNextPage s).1 = c.ValidPageNo s (c.CurrentPageNo s + 1) ∧
    (c.GoToPrevPage s toBottom).1 = c.ValidPageNo s (c.CurrentPageNo s - 1) ∧
    (∀ call ∈ (c.logged.GoToNextPage (s, [])).2.2, c.ValidPageNo s call.1 = true) ∧
    (∀ call ∈ (c.logged.GoToPrevPage (s, []) toBottom).2.2,
      c.ValidPageNo s call.1 = true) ∧
    (∀ call ∈ (c.logged.GoToFirstPage (s, [])).2.2, c.ValidPageNo s call.1 = true) ∧
    (∀ call ∈ (c.logged.GoToLastPage (s, [])).2.2, c.ValidPageNo s call.1 = true) := by
  have hp0 := hp
  obtain ⟨h1, h2⟩ := hp
  have hvalid : ∀ q : Int, c.ValidPageNo s q = true ↔ (1 ≤ q ∧ q ≤ c.PageCount s) := by
    intro q
    simp [Controller.ValidPageNo]
  have hp0l : PageInRange c.logged (s, ([] : List (Int × Bool))) := hp0
  have hnl : IsInt (c.logged.PageCount (s, ([] : List (Int × Bool)))) := hn
  refine ⟨hvalid, ?_, ?_, ?_, ?_, ?_, ?_⟩
  · rcases eq_or_lt_of_le h2 with h | h
    · rw [GoToNextPage_of_eq c s h]
      symm
      rw [Bool.eq_false_iff]
      intro hv
      have := (hvalid _).1 hv
      omega
    · rw [GoToNextPage_of_lt c s hn h1 h]
      symm
      exact (hvalid _).2 ⟨by omega, by omega⟩
  · rcases eq_or_lt_of_le h1 with h | h
    · rw [GoToPrevPage_of_eq c s toBottom h.symm]
      symm
      rw [Bool.eq_false_iff]
      intro hv
      have := (hvalid _).1 hv
      omega
    · rw [GoToPrevPage_of_gt c s toBottom hn hp0 h]
      symm
      exact (hvalid _).2 ⟨by omega, by omega⟩
  · intro call hcall
    rcases eq_or_lt_of_le h2 with h | h
    · rw [GoToNextPage_of_eq c.logged (s, []) h] at hcall
      simp at hcall
    · rw [GoToNextPage_of_lt c.logged (s, []) hnl h1 h] at hcall
      simp only [Controller.logged, List.nil_append, List.mem_singleton] at hcall
      rw [hcall]
      exact (hvalid _).2 ⟨by omega, by omega⟩
  · intro call hcall
    rcases eq_or_lt_of_le h1 with h | h
    · rw [GoToPrevPage_of_eq c.logged (s, []) toBottom h.symm] at hcall
      simp at hcall
    · rw [GoToPrevPage_of_gt c.logged (s, []) toBottom hnl hp0l h] at hcall
      simp only [Controller.logged, List.nil_append, List.mem_singleton] at hcall
      rw [hcall]
      exact (hvalid _).2 ⟨by omega, by omega⟩
  · intro call hcall
    by_cases h : c.CurrentPageNo s = 1
    · simp [Controller.GoToFirstPage, Controller.logged, h] at hcall
    · simp only [Controller.GoToFirstPage, Controller.logged, if_neg h, List.nil_append,
        List.mem_singleton] at hcall
      rw [hcall]
      exact (hvalid _).2 ⟨le_refl 1, by omega⟩
  · intro call hcall
    by_cases h : c.CurrentPageNo s = c.PageCount s
    · simp [Controller.GoToLastPage, Controller.logged, h] at hcall
    · simp only [Controller.GoToLastPage, Controller.logged, if_neg h, List.nil_append,
        List.mem_singleton] at hcall
      rw [hcall]
      exact (hvalid _).2 ⟨by omega, le_refl _⟩

theorem shortcuts_agree_with_ValidPageNo_witness :
    IsInt (docController.PageCount ⟨2147483647, 2147483647, []⟩) ∧
    PageInRange docController ⟨2147483647, 2147483647, []⟩ ∧
    (docController.GoToNextPage ⟨2147483647, 2147483647, []⟩).1 =
      docController.ValidPageNo ⟨2147483647, 2147483647, []⟩
        (docController.CurrentPageNo ⟨2147483647, 2147483647, []⟩ + 1) ∧
    (∀ call ∈ (docController.logged.GoToPrevPage
        (⟨2147483647, 2147483647, []⟩, []) true).2.2,
      docController.ValidPageNo ⟨2147483647, 2147483647, []⟩ call.1 = true) :=
  have h := shortcuts_agree_with_ValidPageNo docController ⟨2147483647, 2147483647, []⟩
    (by decide) (by decide) true
  ⟨by decide, by decide, h.2.1, h.2.2.2.2.1⟩

/-- C10: with a contract-following `GoToPage` and `1 <= p <= n`,
`GoToPrevPage(toBottom)` at `p = 1` returns false, issues no call and leaves
the object as it was; at `p > 1` it returns true through the single call
`GoToPage(p - 1, false)`, the current page becomes `p - 1` and the navigation
history is unchanged.  The outcome is the same for both values of `toBottom`. -/
theorem GoToPrevPage_spec {σ : Type} (c : Controller σ) (hc : GoToPageContract c)
    (navHistory : σ → List Int) (hnav : NavPointContract c navHistory) (s : σ)
    (hn : IsInt (c.PageCount s)) (hp : PageInRange c s) (toBottom : Bool) :
    (c.CurrentPageNo s = 1 →
      c.GoToPrevPage s toBottom = (false, s) ∧
      (c.logged.GoToPrevPage (s, []) toBottom).2.2 = []) ∧
    (1 < c.CurrentPageNo s →
      c.GoToPrevPage s toBottom = (true, c.GoToPage s (c.CurrentPageNo s - 1) false) ∧
      (c.logged.GoToPrevPage (s, []) toBottom).2.2 = [(c.CurrentPageNo s - 1, false)] ∧
      c.CurrentPageNo (c.GoToPrevPage s toBottom).2 = c.CurrentPageNo s - 1 ∧
      navHistory (c.GoToPrevPage s toBottom).2 = navHistory s) ∧
    c.GoToPrevPage s true = c.GoToPrevPage s false := by
  have hp0 := hp
  obtain ⟨h1, h2⟩ := hp
  have hp0l : PageInRange c.logged (s, ([] : List (Int × Bool))) := hp0
  have hnl : IsInt (c.logged.PageCount (s, ([] : List (Int × Bool)))) := hn
  refine ⟨?_, ?_, rfl⟩
  · intro h
    refine ⟨GoToPrevPage_of_eq c s toBottom h, ?_⟩
    rw [GoToPrevPage_of_eq c.logged (s, []) toBottom h]
  · intro h
    refine ⟨GoToPrevPage_of_gt c s toBottom hn hp0 h, ?_, ?_, ?_⟩
    · rw [GoToPrevPage_of_gt c.logged (s, []) toBottom hnl hp0l h]
      simp [Controller.logged]
    · rw [GoToPrevPage_of_gt c s toBottom hn hp0 h]
      exact hc.moves s _ false (by omega) (by omega)
    · rw [GoToPrevPage_of_gt c s toBottom hn hp0 h]
      exact hnav.kept s _

theorem GoToPrevPage_spec_witness :
    GoToPageContract docController ∧
    NavPointContract docController DocState.navHistory ∧
    IsInt (docController.PageCount ⟨10, 5, [7]⟩) ∧
    PageInRange docController ⟨10, 5, [7]⟩ ∧
    docController.GoToPrevPage ⟨10, 5, [7]⟩ true = (true, ⟨10, 4, [7]⟩) ∧
    DocState.navHistory (docController.GoToPrevPage ⟨10, 5, [7]⟩ true).2 =
      DocState.navHistory ⟨10, 5, [7]⟩ :=
  ⟨docController_contract, docController_navPoints, by decide, by decide, by decide,
    ((GoToPrevPage_spec docController docController_contract DocState.navHistory
      docController_navPoints ⟨10, 5, [7]⟩ (by decide) (by decide) true).2.1
        (by decide)).2.2.2⟩

/-! ### Page labels -/

theorem formatDigits_eq_digits (fuel : Nat) :
    ∀ n : Nat, n < fuel → 0 < n →
      formatDigits fuel n = ((Nat.digits 10 n).reverse).map digitChar := by
  induction fuel with
  | zero => intro n h; omega
  | succ fuel ih =>
    intro n hlt hpos
    simp only [formatDigits]
    split
    · rename_i h10
      rw [Nat.digits_of_lt 10 n (by omega) h10]
      rfl
    · rename_i h10
      rw [Nat.digits_def' (by norm_num) hpos, List.reverse_cons, List.map_append,
        ih (n / 10) (by omega) (by omega)]
      rfl

theorem wtoiDigits_formatDigits (fuel : Nat) :
    ∀ (n : Nat) (rest : WString), n < fuel →
      wtoiDigits 0 (formatDigits fuel n ++ rest) = wtoiDigits n rest := by
  induction fuel with
  | zero => intro n rest h; omega
  | succ fuel ih =>
    intro n rest hlt
    simp only [formatDigits]
    split
    · rename_i h10
      have hd : isWDigit (digitChar n) = true := by
        simp only [isWDigit, digitChar, Bool.and_eq_true, decide_eq_true_eq]
        omega
      show wtoiDigits 0 (digitChar n :: rest) = wtoiDigits n rest
      simp only [wtoiDigits]
      rw [if_pos hd]
      congr 1
      simp only [digitChar]
      omega
    · rename_i h10
      have hd : isWDigit (digitChar (n % 10)) = true := by
        simp only [isWDigit, digitChar, Bool.and_eq_true, decide_eq_true_eq]
        omega
      rw [List.append_assoc, ih (n / 10) _ (by omega)]
      show wtoiDigits (n / 10) (digitChar (n % 10) :: rest) = wtoiDigits n rest
      simp only [wtoiDigits]
      rw [if_pos hd]
      congr 1
      simp only [digitChar]
      omega

theorem formatDigits_head (fuel : Nat) :
    ∀ n : Nat, ∃ d tl, d < 10 ∧ formatDigits (fuel + 1) n = digitChar d :: tl := by
  induction fuel with
  | zero =>
    intro n
    by_cases h10 : n < 10
    · exact ⟨n, [], h10, by simp [formatDigits, h10]⟩
    · exact ⟨n % 10, [], by omega, by simp [formatDigits, h10]⟩
  | succ fuel ih =>
    intro n
    by_cases h10 : n < 10
    · exact ⟨n, [], h10, by simp [formatDigits, h10]⟩
    · obtain ⟨d, tl, hd, heq⟩ := ih (n / 10)
      refine ⟨d, tl ++ [digitChar (n % 10)], hd, ?_⟩
      rw [formatDigits, if_neg h10, heq]
      rfl

theorem wtoi_of_digit_head (d : Nat) (tl : WString) (hd : d < 10) :
    _wtoi (digitChar d :: tl) = saturateInt (wtoiDigits 0 (digitChar d :: tl) : Int) := by
  have hs : isWSpace (digitChar d) = false := by
    simp only [isWSpace, digitChar, Bool.or_eq_false_iff, beq_eq_false_iff_ne,
      Bool.and_eq_false_iff, decide_eq_false_iff_not]
    omega
  have h45 : digitChar d ≠ 45 := by simp only [digitChar]; omega
  have h43 : digitChar d ≠ 43 := by simp only [digitChar]; omega
  simp only [_wtoi, skipSpaces, hs]
  simp only [Bool.false_eq_true, if_false]
  rw [if_neg h45, if_neg h43]

theorem wtoi_of_minus (cs : WString) :
    _wtoi (45 :: cs) = saturateInt (-(wtoiDigits 0 cs : Int)) := by
  have hs : isWSpace 45 = false := by decide
  simp only [_wtoi, skipSpaces, hs]
  simp

/-- Parsing with `_wtoi` undoes formatting with `%d` on every `int`. -/
theorem wtoi_strFormatD (n : Int) (hn : IsInt n) : _wtoi (strFormatD n) = n := by
  have hparse : wtoiDigits 0 (formatDigits (n.natAbs + 1) n.natAbs) = n.natAbs := by
    have h := wtoiDigits_formatDigits (n.natAbs + 1) n.natAbs [] (by omega)
    simpa [wtoiDigits] using h
  obtain ⟨d, tl, hd, heq⟩ := formatDigits_head n.natAbs n.natAbs
  simp only [IsInt, INT_MIN, INT_MAX] at hn
  by_cases hneg : n < 0
  · simp only [strFormatD, if_pos hneg, wtoi_of_minus, hparse]
    simp only [saturateInt, INT_MIN, INT_MAX]
    split
    · omega
    · split <;> omega
  · simp only [strFormatD, if_neg hneg]
    rw [heq, wtoi_of_digit_head d tl hd, ← heq, hparse]
    simp only [saturateInt, INT_MIN, INT_MAX]
    split
    · omega
    · split <;> omega

/-- C3: the default page-label methods: `HasPageLabels` is false, and for every
valid page number `n` (an `int`) `GetPageLabel(n)` is the decimal text of `n`
and `GetPageByLabel(GetPageLabel(n)) = n`. -/
theorem default_page_labels_roundtrip {σ : Type} (c : Controller σ) (s : σ) (n : Int)
    (hn : IsInt n) (hv : c.ValidPageNo s n = true) :
    Controller.HasPageLabels = false ∧
    Controller.GetPageLabel n = decimalText n.toNat ∧
    Controller.GetPageByLabel (Controller.GetPageLabel n) = n := by
  have hpos : 1 ≤ n := by
    simp only [Controller.ValidPageNo, Bool.and_eq_true, decide_eq_true_eq] at hv
    exact hv.1
  refine ⟨rfl, ?_, wtoi_strFormatD n hn⟩
  have hnat : n.natAbs = n.toNat := by omega
  have hne : n.toNat ≠ 0 := by omega
  simp only [Controller.GetPageLabel, strFormatD, if_neg (not_lt.2 (by omega : (0 : Int) ≤ n)),
    decimalText, if_neg hne, hnat]
  exact formatDigits_eq_digits (n.toNat + 1) n.toNat (by omega) (by omega)

theorem default_page_labels_roundtrip_witness :
    IsInt 120 ∧
    docController.ValidPageNo ⟨300, 1, []⟩ 120 = true ∧
    Controller.GetPageLabel 120 = [49, 50, 48] ∧
    Controller.GetPageLabel 120 = decimalText (120 : Int).toNat ∧
    Controller.GetPageByLabel (Controller.GetPageLabel 120) = 120 :=
  have h := default_page_labels_roundtrip docController ⟨300, 1, []⟩ 120
    (by decide) (by decide)
  ⟨by decide, by decide, by decide, h.2.1, h.2.2⟩

/-! ### Capability queries -/

/-- C4: for each of the three variants, exactly one of `AsFixed()`, `AsChm()`,
`AsEbook()` is non-null (it is `this`, and it is the variant's own query) and
the other two are null. -/
theorem exactly_one_capability {α : Type} (v : Variant) (this : α) :
    (v = Variant.FixedPageUIController ∧
      v.AsFixed this = some this ∧ v.AsChm this = none ∧ v.AsEbook this = none) ∨
    (v = Variant.ChmUIController ∧
      v.AsFixed this = none ∧ v.AsChm this = some this ∧ v.AsEbook this = none) ∨
    (v = Variant.EbookUIController ∧
      v.AsFixed this = none ∧ v.AsChm this = none ∧ v.AsEbook this = some this) := by
  cases v
  · exact Or.inl ⟨rfl, rfl, rfl, rfl⟩
  · exact Or.inr (Or.inl ⟨rfl, rfl, rfl, rfl⟩)
  · exact Or.inr (Or.inr ⟨rfl, rfl, rfl, rfl⟩)

/-! ### Construction -/

/-- C6: constructing a `Controller` is fatal exactly when the callback argument
is null; with a non-null argument construction succeeds and stores it in `cb`,
so `cb` is non-null in every constructed `Controller`. -/
theorem ctor_fatal_iff_null (cb : CallbackPtr) :
    (Controller.ctor cb = Except.error Fatal.crash ↔ cb = NULL) ∧
    (cb ≠ NULL → Controller.ctor cb = Except.ok { cb := cb }) ∧
    (∀ this : ControllerFields, Controller.ctor cb = Except.ok this →
      this.cb = cb ∧ this.cb ≠ NULL) := by
  by_cases h : cb = NULL
  · subst h
    refine ⟨⟨fun _ => rfl, fun _ => rfl⟩, fun hne => absurd rfl hne, ?_⟩
    intro this hthis
    simp [Controller.ctor, CrashIf] at hthis
  · have hb : (cb == NULL) = false := by simpa using h
    have hok : Controller.ctor cb = Except.ok { cb := cb } := by
      simp [Controller.ctor, CrashIf, hb]
    refine ⟨?_, fun _ => hok, ?_⟩
    · rw [hok]
      constructor
      · intro hcontra
        cases hcontra
      · intro hcontra
        exact absurd hcontra h
    · intro this hthis
      rw [hok] at hthis
      cases hthis
      exact ⟨rfl, h⟩

end SumatraPDF
